import Mathlib

/-!
Verification of the `Contour` visualization helper class of the
data-science-challenges repository (MAST Plasma Equilibrium notebook).

The Python class manages overlaid matplotlib contour plots of 2D poloidal
flux fields and assembles frame-by-frame animations into a GIF.  This file
gives a shallow embedding of the class: its instance state is an explicit
`Contour` structure, each method is a state-passing function returning
`(Except PyError result) × Contour` (state updates that Python performs
before an exception is raised are kept, as they are in Python), and scalar
field values are exact rationals.

Third-party behaviour that the class calls into is modelled from the
libraries' documented semantics:
* `numpy.ndarray.reshape` succeeds exactly when the element count matches
  the requested shape, else raises `ValueError`;
* `numpy.ndarray.min`/`max` on a zero-size array raise `ValueError`;
* `numpy.linspace a b n` returns `a + i*(b-a)/(n-1)` for `i < n`;
* `zip` truncates to the shorter of its two arguments;
* `matplotlib.axes.Axes.contour` checks that `z` is at least 2x2 and that
  the coordinate lengths match `z`'s shape (`TypeError`), rejects an
  explicit level list of length above one that is not strictly increasing
  (`ValueError: Contour levels must be increasing`), and, for line
  contours, replaces the level list by the singleton `[zmin]` when no level
  lies strictly inside the data range (`No contour levels were found within
  the data range`); otherwise `ContourSet.levels` is the requested list;
* `functools.cached_property` computes on first access, stores the value in
  the instance dictionary, and `del` of a never-computed cached property
  raises `AttributeError`;
* `PIL`'s GIF export writes the base image followed by all `append_images`.

Rendered raster images are modelled as the list of contour artists present
on the drawing surface at snapshot time.
-/

deriving instance DecidableEq for Except

/-- Errors raised by the Python code, by exception class. -/
inductive PyError where
  | attributeError (msg : String)
  | valueError (msg : String)
  | typeError (msg : String)
  | indexError (msg : String)
deriving DecidableEq, Repr

/-- Model of an `xarray.DataArray` holding a 2D flux map with dims
`(z, major_radius)`.  `sizes` of the two dims are `nz` and `nr`; the
coordinate variables `z` and `major_radius` may be absent (attribute access
then raises `AttributeError`), which is modelled by `Option`.  `values` is
the flattened (row-major) data. -/
structure DataArray where
  z_coord : Option (List Rat)
  r_coord : Option (List Rat)
  nz : Nat
  nr : Nat
  values : List Rat
deriving DecidableEq, Repr

/-- The `levels` attribute of the `Contour` dataclass: initially the integer
default `31` (a requested level count), replaced by an explicit level list
after the first contour draw. -/
inductive LevelSpec where
  | count (n : Nat)
  | explicit (l : List Rat)
deriving DecidableEq, Repr

/-- A contour artist returned by `matplotlib`'s `contour` call and kept on
the axes until removed.  `id` models Python object identity (needed for
`remove`), the remaining fields record what the artist draws. -/
structure ContourSet where
  id : Nat
  xs : List Rat
  ys : List Rat
  zdata : List (List Rat)
  levels : List Rat
  colors : String
deriving DecidableEq, Repr

/-- A rendered raster snapshot, modelled as the contour artists present on
the drawing surface when `fig.canvas.draw()` ran. -/
abbrev Frame := List ContourSet

/-- Observable effects of one `_next_image` run, in order. -/
inductive Event where
  | reset
  | drawPair (i : Nat)
  | legendBuilt
  | removePrev
  | yieldFrame (i : Nat)
deriving DecidableEq, Repr

/-- Instance state of the `Contour` dataclass.  `shapeCache` and
`axesCache` model the `functools.cached_property` slots for `shape` and
`axes` (`none` while never computed / after `del`); the cached axes value
is the list of artists currently on the drawing surface.  `nextId` is a
counter handing out artist identities.  `handles` holds the pending legend
entries as (label, color) pairs. -/
structure Contour where
  magnetic_flux : Option DataArray := none
  levels : LevelSpec := .count 31
  handles : List (String × String) := []
  shapeCache : Option (Nat × Nat) := none
  axesCache : Option (List ContourSet) := none
  nextId : Nat := 0
deriving DecidableEq, Repr

/-- The `data` argument of `Contour.plot`: a `DataArray`, a bare flat
array, or the Python default `None`. -/
inductive PlotData where
  | dataArray (a : DataArray)
  | ndarray (v : List Rat)
  | noneData
deriving DecidableEq, Repr

/-- The keyword arguments of `Contour.plot` that the class reads: `colors`
and `levels` (absent entries fall back to the defaults merged in by the
method). -/
structure Kwargs where
  colors : Option String := none
  levels : Option LevelSpec := none
deriving DecidableEq, Repr

/-- Result of consuming the `_next_image` generator: the frames yielded so
far, the effect trace, and the exception that terminated iteration, if
any. -/
structure AnimResult where
  frames : List Frame
  events : List Event
  error : Option PyError
deriving DecidableEq, Repr

/-- The GIF file written by `Contour.to_gif`: the image sequence passed to
the encoder (`imgs[0]` followed by `append_images=imgs`), the per-frame
duration in ms, and the loop count (0 = forever). -/
structure GifFile where
  path : String
  images : List Frame
  duration : Nat
  loopCount : Nat
deriving DecidableEq, Repr

/-- Minimum of a list of rationals (`numpy` `.min()` on a non-empty array);
the default for the empty list is never used, callers check emptiness
first. -/
def listMin (l : List Rat) : Rat := l.foldl min (l.headD 0)

/-- Maximum of a list of rationals (`numpy` `.max()`). -/
def listMax (l : List Rat) : Rat := l.foldl max (l.headD 0)

/-- Models `numpy.linspace a b n`: the `i`-th point is
`a + i * (b - a) / (n - 1)`.  Written as a single `mkRat` fraction so that
it evaluates by kernel reduction; `linspace_getD` below proves the
textbook form. -/
def linspace (a b : Rat) (n : Nat) : List Rat :=
  match n with
  | 0 => []
  | 1 => [a]
  | _ =>
    (List.range n).map (fun (i : Nat) =>
      mkRat (a.num * (b.den * (n - 1)) + (b.num * a.den - a.num * b.den) * (i : Int))
            (a.den * b.den * (n - 1)))

/-- Strict monotonicity test used to model matplotlib's
`np.min(np.diff(levels)) <= 0` rejection (vacuously true below two
elements, as in matplotlib). -/
def strictIncr : List Rat → Bool
  | [] => true
  | [_] => true
  | a :: b :: rest => (a.blt b) && strictIncr (b :: rest)

/-- Models `ndarray.reshape (nz, nr)` of a flat array known to have
`nz * nr` elements: the list of `nz` rows of length `nr`. -/
def chunkRows (v : List Rat) (nz nr : Nat) : List (List Rat) :=
  match nz with
  | 0 => []
  | Nat.succ m => v.take nr :: chunkRows (v.drop nr) m nr

/-- Models matplotlib's automatic level selection for an integer `levels`
count (a `MaxNLocator`-based tick choice; for a degenerate data range the
locator expands the interval).  No theorem below depends on the particular
values chosen, only on the fact that the selection is strictly
increasing. -/
def autoLevels (zmin zmax : Rat) (n : Nat) : List Rat :=
  if zmin.blt zmax then linspace zmin zmax (n + 1)
  else linspace (zmin - 1) (zmin + 1) (n + 1)

/-- Models the level post-processing of a matplotlib line contour with an
explicit level list `L` on data ranging over `[zmin, zmax]`: if no level
lies strictly inside `(zmin, zmax)` the level set becomes the singleton
`[zmin]` (matplotlib warns `No contour levels were found within the data
range`); otherwise the full requested list is kept. -/
def stepLevelsRange (L : List Rat) (zmin zmax : Rat) : List Rat :=
  if (L.filter (fun l => zmin.blt l && l.blt zmax)).isEmpty then [zmin] else L

/-- The level list a contour draw leaves behind when drawing flat data `v`
with current levels `L` (range form of `stepLevelsRange`). -/
def stepLevels (L : List Rat) (v : List Rat) : List Rat :=
  stepLevelsRange L (listMin v) (listMax v)

/-- Models `matplotlib.axes.Axes.contour(x, y, Z, levels=.., colors=..)`
for a line contour: the `_check_xyz` shape checks (`TypeError`), then the
level-argument processing (an explicit list longer than one element must be
strictly increasing, else `ValueError`), then the in-range filtering of
`stepLevelsRange`.  On success the resulting artist records the grid, the
data and the processed levels. -/
def contourCall (x y : List Rat) (Z : List (List Rat)) (lv : LevelSpec)
    (colors : String) (id : Nat) : Except PyError ContourSet :=
  let nrows := Z.length
  let ncols := (Z.headD []).length
  if nrows < 2 ∨ ncols < 2 then
    .error (.typeError "Input z must be at least a 2x2 shaped array")
  else if x.length ≠ ncols then
    .error (.typeError "Length of x must match number of columns in z")
  else if y.length ≠ nrows then
    .error (.typeError "Length of y must match number of rows in z")
  else
    let zmin := listMin Z.flatten
    let zmax := listMax Z.flatten
    let L := match lv with
      | .count n => autoLevels zmin zmax n
      | .explicit L => L
    if strictIncr L then
      .ok ⟨id, x, y, Z, stepLevelsRange L zmin zmax, colors⟩
    else
      .error (.valueError "Contour levels must be increasing")

/-- The `axes` cached property: returns the cached drawing surface, or
creates and caches a fresh empty one (a new `plt.subplots` figure). -/
def Contour.axes (c : Contour) : (List ContourSet) × Contour :=
  match c.axesCache with
  | some s => (s, c)
  | none => ([], { c with axesCache := some [] })

/-- The `shape` cached property: on first access computes
`(magnetic_flux.sizes z, magnetic_flux.sizes major_radius)` from the
currently bound flux field and caches it; afterwards always returns the
cached pair.  Accessing it with no bound field raises `AttributeError`
(attribute `sizes` of `None`). -/
def Contour.shape (c : Contour) : (Except PyError (Nat × Nat)) × Contour :=
  match c.shapeCache with
  | some p => (.ok p, c)
  | none =>
    match c.magnetic_flux with
    | none => (.error (.attributeError "NoneType object has no attribute sizes"), c)
    | some a => (.ok (a.nz, a.nr), { c with shapeCache := some (a.nz, a.nr) })

/-- The error message of the `except AttributeError` re-raise in
`Contour.plot`. -/
def gridMsg : String :=
  "Grid coordinates major_radius and z not found on magnetic_flux DataArray."

/-- `Contour.plot`: binds `magnetic_flux` when given a `DataArray`, merges
the default kwargs `colors=gray, levels=self.levels`, then evaluates
`self.axes.contour(self.magnetic_flux.major_radius, self.magnetic_flux.z,
data.reshape(self.shape), ..)` in Python's evaluation order (callee
`self.axes` first, then the arguments left to right).  Any
`AttributeError` raised inside the call is re-raised with `gridMsg`; the
`ValueError` of a failing `reshape` propagates unchanged.  On success the
artist is added to the axes, `self.levels` is set to the processed contour
levels and, when a non-empty label was given, a legend handle with the
merged color is appended. -/
def Contour.plot (c : Contour) (data : PlotData) (label : Option String)
    (kw : Kwargs) : (Except PyError ContourSet) × Contour :=
  let c0 : Contour :=
    match data with
    | .dataArray a => { c with magnetic_flux := some a }
    | _ => c
  let dataV : Option (List Rat) :=
    match data with
    | .dataArray a => some a.values
    | .ndarray v => some v
    | .noneData => none
  let colors := kw.colors.getD "gray"
  let lv := kw.levels.getD c0.levels
  let (_, c1) := c0.axes
  match c1.magnetic_flux with
  | none => (.error (.attributeError gridMsg), c1)
  | some A =>
    match A.r_coord with
    | none => (.error (.attributeError gridMsg), c1)
    | some xs =>
      match A.z_coord with
      | none => (.error (.attributeError gridMsg), c1)
      | some ys =>
        match dataV with
        | none => (.error (.attributeError gridMsg), c1)
        | some v =>
          match c1.shape with
          | (.error _, c2) => (.error (.attributeError gridMsg), c2)
          | (.ok (nz, nr), c2) =>
            if v.length ≠ nz * nr then
              (.error (.valueError "cannot reshape array"), c2)
            else
              let Z := chunkRows v nz nr
              match contourCall xs ys Z lv colors c2.nextId with
              | .error e => (.error e, c2)
              | .ok cs =>
                let scene := (c2.axesCache.getD []) ++ [cs]
                let hs :=
                  match label with
                  | some l => if l.isEmpty then c2.handles else c2.handles ++ [(l, colors)]
                  | none => c2.handles
                (.ok cs,
                  { c2 with
                      levels := .explicit cs.levels
                      handles := hs
                      axesCache := some scene
                      nextId := c2.nextId + 1 })

/-- removes the artists with the given identities from the drawing
surface (the `contour.remove()` loop). -/
def removeIds (scene : List ContourSet) (ids : List Nat) : List ContourSet :=
  scene.filter (fun a => !(ids.contains a.id))

/-- `Contour.legend`: passes the accumulated handles to `plt.legend` (the
returned list) and empties the handle list; nothing else changes. -/
def Contour.legend (c : Contour) : (List (String × String)) × Contour :=
  (c.handles, { c with handles := [] })

/-- `Contour.__call__`: plots the EFIT++ ground truth in gray and the
prediction in the accent color `C0`, each with its legend label, and
returns the two artists. -/
def Contour.call (c : Contour) (efit prediction : List Rat) :
    (Except PyError (List ContourSet)) × Contour :=
  match c.plot (.ndarray efit) (some "EFIT++") { colors := some "gray" } with
  | (.error e, c) => (.error e, c)
  | (.ok cs1, c) =>
    match c.plot (.ndarray prediction) (some "Prediction") { colors := some "C0" } with
    | (.error e, c) => (.error e, c)
    | (.ok cs2, c) => (.ok [cs1, cs2], c)

/-- The `for _efit, _prediction in zip(efit, prediction)` loop body of
`_next_image`: remove the artists of the previous pair, redraw both fields
at the current index, snapshot the canvas and yield it. -/
def Contour.animGo (c : Contour) (contours : List ContourSet)
    (pairs : List (List Rat × List Rat)) (tr : List Event)
    (acc : List Frame) (i : Nat) : AnimResult × Contour :=
  match pairs with
  | [] => (⟨acc, tr, none⟩, c)
  | (e, p) :: rest =>
    let c := { c with
      axesCache := some (removeIds (c.axesCache.getD [])
        (contours.map (fun (a : ContourSet) => a.id))) }
    let tr := tr ++ [Event.removePrev]
    match c.call e p with
    | (.error err, c) => (⟨acc, tr, some err⟩, c)
    | (.ok cs, c) =>
      let tr := tr ++ [Event.drawPair i]
      let frame := c.axesCache.getD []
      Contour.animGo c cs rest (tr ++ [Event.yieldFrame i]) (acc ++ [frame]) (i + 1)

/-- `Contour._next_image`, consumed to exhaustion (as `to_gif` does):
`del self.axes` (an `AttributeError` if the axes were never created),
clear the legend handles, fix `self.levels` to the 51-point `linspace`
over the global min/max of the whole ground-truth sequence, draw the last
frame pair, build the legend once, then run the zip loop.  Sequences are
lists of flattened frames. -/
def Contour.next_image (c : Contour) (efit prediction : List (List Rat)) :
    AnimResult × Contour :=
  match c.axesCache with
  | none => (⟨[], [], some (.attributeError "Contour object has no attribute axes")⟩, c)
  | some _ =>
    let c := { c with axesCache := none, handles := [] }
    let tr := [Event.reset]
    match efit.flatten with
    | [] =>
      (⟨[], tr, some (.valueError "zero-size array to reduction operation minimum which has no identity")⟩, c)
    | a :: rest =>
      let gmin := listMin (a :: rest)
      let gmax := listMax (a :: rest)
      let c := { c with levels := .explicit (linspace gmin gmax 51) }
      match efit.getLast?, prediction.getLast? with
      | some le, some lp =>
        (match c.call le lp with
        | (.error e, c) => (⟨[], tr, some e⟩, c)
        | (.ok contours, c) =>
          let tr := tr ++ [Event.drawPair (efit.length - 1)]
          let (_, c) := c.legend
          let tr := tr ++ [Event.legendBuilt]
          c.animGo contours (efit.zip prediction) tr [] 0)
      | _, _ =>
        (⟨[], tr, some (.indexError "index -1 is out of bounds")⟩, c)

/-- `Contour.to_gif`: consume `_next_image` eagerly into `imgs`, then
`imgs[0].save(.., save_all=True, append_images=imgs, duration=100,
loop=0)`: the encoder is handed `imgs[0]` followed by all of `imgs`.  An
exception in the generator propagates; `imgs[0]` on an empty list would
raise `IndexError`. -/
def Contour.to_gif (c : Contour) (efit prediction : List (List Rat)) :
    (Except PyError GifFile) × Contour :=
  let (r, c) := c.next_image efit prediction
  match r.error with
  | some e => (.error e, c)
  | none =>
    match r.frames with
    | [] => (.error (.indexError "list index out of range"), c)
    | f :: fs =>
      (.ok ⟨"equilibrium_animation.gif", f :: (f :: fs), 100, 0⟩, c)

/-- The operations a client can perform on a `Contour` instance. -/
inductive Op where
  | plotOp (d : PlotData) (label : Option String) (kw : Kwargs)
  | legendOp
  | callOp (e p : List Rat)
  | imageOp (e p : List (List Rat))
  | gifOp (e p : List (List Rat))
  | shapeOp
  | axesOp

/-- State transition of one operation (its returned value discarded). -/
def applyOp (c : Contour) : Op → Contour
  | .plotOp d l kw => (c.plot d l kw).2
  | .legendOp => c.legend.2
  | .callOp e p => (c.call e p).2
  | .imageOp e p => (c.next_image e p).2
  | .gifOp e p => (c.to_gif e p).2
  | .shapeOp => c.shape.2
  | .axesOp => c.axes.2

/-- State after a sequence of operations. -/
def applyOps (c : Contour) (ops : List Op) : Contour := ops.foldl applyOp c

/-- The per-iteration effect trace of the animation loop: `n` steps
starting at frame index `i`, each removing the previous artists, redrawing
the current pair and yielding its snapshot. -/
def stepEvents : Nat → Nat → List Event
  | _, 0 => []
  | i, Nat.succ n =>
    Event.removePrev :: Event.drawPair i :: Event.yieldFrame i :: stepEvents (i + 1) n

/-- A 2x2 test grid with coordinates 0, 1 in both directions and
flux values 0, 0, 0, 1. -/
def gridA : DataArray :=
  { z_coord := some [0, 1], r_coord := some [0, 1], nz := 2, nr := 2,
    values := [0, 0, 0, 1] }

/-- An animator bound to `gridA` whose drawing surface has been created
(the state after normal single-frame use, as in the notebook). -/
def baseC : Contour :=
  { magnetic_flux := some gridA, axesCache := some [] }

/-- An animator bound to `gridA` whose grid shape cache is established. -/
def boundC : Contour :=
  { magnetic_flux := some gridA, axesCache := some [], shapeCache := some (2, 2) }

/-- A 2x2 `DataArray` carrying no coordinate variables. -/
def gridNoCoords : DataArray :=
  { z_coord := none, r_coord := none, nz := 2, nr := 2, values := [0, 0, 0, 1] }

/-- Default artist used only as the fallback of `List.getD`. -/
def noArtist : ContourSet := ⟨0, [], [], [], [], ""⟩

/-- The frames an animation loop produces, made explicit: starting from
current levels `L` and artist-id counter `k`, each pair draws the
ground-truth field (levels evolving by `stepLevels`) and then the
prediction. -/
def expFrames (xs ys : List Rat) (nz nr : Nat) :
    List Rat → Nat → List (List Rat × List Rat) → List Frame
  | _, _, [] => []
  | L, k, (e, p) :: rest =>
    [⟨k, xs, ys, chunkRows e nz nr, stepLevels L e, "gray"⟩,
     ⟨k + 1, xs, ys, chunkRows p nz nr, stepLevels (stepLevels L e) p, "C0"⟩] ::
      expFrames xs ys nz nr (stepLevels (stepLevels L e) p) (k + 2) rest

/-- The level list after the draws of a list of frame pairs. -/
def levelsAt (L : List Rat) : List (List Rat × List Rat) → List Rat
  | [] => L
  | (e, p) :: rest => levelsAt (stepLevels (stepLevels L e) p) rest

theorem rat_blt_iff (a b : Rat) : a.blt b = true ↔ a < b := Iff.rfl

theorem chunkRows_length (v : List Rat) (nz nr : Nat) :
    (chunkRows v nz nr).length = nz := by
  induction nz generalizing v with
  | zero => rfl
  | succ m ih => simp [chunkRows, ih]

theorem chunkRows_flatten (v : List Rat) (nz nr : Nat) (h : v.length = nz * nr) :
    (chunkRows v nz nr).flatten = v := by
  induction nz generalizing v with
  | zero =>
    simp [chunkRows]
    have : v.length = 0 := by omega
    simpa using (List.length_eq_zero.mp this).symm
  | succ m ih =>
    simp only [chunkRows, List.flatten_cons]
    rw [ih (v.drop nr) (by simp [h]; ring_nf; omega)]
    exact List.take_append_drop nr v

theorem chunkRows_head_length (v : List Rat) (nz nr : Nat)
    (h : v.length = nz * nr) (h1 : 1 ≤ nz) :
    ((chunkRows v nz nr).headD []).length = nr := by
  obtain ⟨m, rfl⟩ : ∃ m, nz = m + 1 := ⟨nz - 1, by omega⟩
  simp only [chunkRows, List.headD_cons, List.length_take]
  have h2 : nr ≤ v.length := h ▸ Nat.le_mul_of_pos_left nr (by omega)
  omega

theorem removeIds_self (l : List ContourSet) :
    removeIds l (l.map (fun a => a.id)) = [] := by
  rw [removeIds, List.filter_eq_nil_iff]
  intro a ha
  simp [List.contains_iff_exists_mem_beq]
  exact ⟨a, ha, rfl⟩

theorem foldl_min_const (l : List Rat) (v x : Rat) (hx : x = v)
    (h : ∀ y ∈ l, y = v) : l.foldl min x = v := by
  induction l generalizing x with
  | nil => exact hx
  | cons b t ih =>
    simp only [List.foldl_cons]
    exact ih (min x b) (by rw [hx, h b (by simp), min_self]) (fun y hy => h y (by simp [hy]))

theorem foldl_max_const (l : List Rat) (v x : Rat) (hx : x = v)
    (h : ∀ y ∈ l, y = v) : l.foldl max x = v := by
  induction l generalizing x with
  | nil => exact hx
  | cons b t ih =>
    simp only [List.foldl_cons]
    exact ih (max x b) (by rw [hx, h b (by simp), max_self]) (fun y hy => h y (by simp [hy]))

theorem listMin_const (l : List Rat) (v : Rat) (hne : l ≠ [])
    (h : ∀ x ∈ l, x = v) : listMin l = v := by
  cases l with
  | nil => exact absurd rfl hne
  | cons a rest =>
    exact foldl_min_const _ v _ (h a (by simp)) h

theorem listMax_const (l : List Rat) (v : Rat) (hne : l ≠ [])
    (h : ∀ x ∈ l, x = v) : listMax l = v := by
  cases l with
  | nil => exact absurd rfl hne
  | cons a rest =>
    exact foldl_max_const _ v _ (h a (by simp)) h

theorem rat_num_eq (q : Rat) : (q.num : Rat) = q * q.den := by
  have hd : ((q.den : Rat)) ≠ 0 := by exact_mod_cast q.den_nz
  have h := Rat.num_div_den q
  rw [div_eq_iff hd] at h
  exact h

theorem linspace_length (a b : Rat) (n : Nat) : (linspace a b n).length = n := by
  match n with
  | 0 => rfl
  | 1 => rfl
  | m + 2 => simp [linspace]

theorem getD_map_range (f : Nat → Rat) (n i : Nat) (hi : i < n) :
    ((List.range n).map f).getD i 0 = f i := by
  rw [List.getD_eq_getElem _ _ (by simpa using hi)]
  simp

theorem linspace_getD (a b : Rat) (n i : Nat) (h2 : 2 ≤ n) (hi : i < n) :
    (linspace a b n).getD i 0 = a + (b - a) * i / ((n : Rat) - 1) := by
  obtain ⟨m, rfl⟩ : ∃ m, n = m + 2 := ⟨n - 2, by omega⟩
  rw [show linspace a b (m + 2) = (List.range (m + 2)).map (fun (i : Nat) =>
      mkRat (a.num * (b.den * (m + 2 - 1)) + (b.num * a.den - a.num * b.den) * (i : Int))
            (a.den * b.den * (m + 2 - 1))) from rfl]
  rw [getD_map_range _ _ _ hi]
  have hsub : m + 2 - 1 = m + 1 := rfl
  rw [hsub, Rat.mkRat_eq_div]
  have hda : ((a.den : Rat)) ≠ 0 := by exact_mod_cast a.den_nz
  have hdb : ((b.den : Rat)) ≠ 0 := by exact_mod_cast b.den_nz
  have hm : ((m : Rat) + 1) ≠ 0 := by positivity
  have hden : ((m + 2 : Nat) : Rat) - 1 = (m : Rat) + 1 := by push_cast; ring
  rw [hden]
  have hna := rat_num_eq a
  have hnb := rat_num_eq b
  push_cast
  field_simp
  rw [hna, hnb]
  ring

theorem strictIncr_of_getD (L : List Rat)
    (h : ∀ i, i + 1 < L.length → L.getD i 0 < L.getD (i + 1) 0) :
    strictIncr L = true := by
  induction L with
  | nil => rfl
  | cons a t ih =>
    cases t with
    | nil => rfl
    | cons b r =>
      simp only [strictIncr, Bool.and_eq_true]
      refine ⟨(rat_blt_iff a b).mpr ?_, ?_⟩
      · have := h 0 (by simp)
        simpa using this
      · exact ih (fun i hi => by
          have := h (i + 1) (by simpa using Nat.succ_lt_succ hi)
          simpa [List.getD_cons_succ] using this)

theorem strictIncr_linspace (a b : Rat) (n : Nat) (hab : a < b) (h2 : 2 ≤ n) :
    strictIncr (linspace a b n) = true := by
  apply strictIncr_of_getD
  intro i hi
  rw [linspace_length] at hi
  rw [linspace_getD a b n i h2 (by omega), linspace_getD a b n (i + 1) h2 (by omega)]
  have hm : (0 : Rat) < (n : Rat) - 1 := by
    have : (2 : Rat) ≤ (n : Rat) := by exact_mod_cast h2
    linarith
  have hba : (0 : Rat) < b - a := by linarith
  have hii : (i : Rat) < (i : Rat) + 1 := by linarith
  have := mul_lt_mul_of_pos_left hii hba
  have h3 : (b - a) * i / ((n : Rat) - 1) < (b - a) * ((i : Rat) + 1) / ((n : Rat) - 1) :=
    div_lt_div_of_pos_right this hm
  push_cast
  linarith

theorem strictIncr_linspace_self (a : Rat) (n : Nat) (h2 : 2 ≤ n) :
    strictIncr (linspace a a n) = false := by
  obtain ⟨x, y, r, hxy⟩ : ∃ x y r, linspace a a n = x :: y :: r := by
    have hl := linspace_length a a n
    match hle : linspace a a n with
    | [] => rw [hle] at hl; simp at hl; omega
    | [x] => rw [hle] at hl; simp at hl; omega
    | x :: y :: r => exact ⟨x, y, r, rfl⟩
  have hx : x = a := by
    have := linspace_getD a a n 0 h2 (by omega)
    rw [hxy] at this
    simpa using this
  have hy : y = a := by
    have := linspace_getD a a n 1 h2 (by omega)
    rw [hxy] at this
    simp at this
    simpa using this
  rw [hxy, hx, hy]
  simp only [strictIncr, Bool.and_eq_false_iff]
  left
  rw [show (Rat.blt a a = false) ↔ ¬(Rat.blt a a = true) by simp]
  rw [rat_blt_iff]
  exact lt_irrefl a

theorem stepLevels_strictIncr (L v : List Rat) (h : strictIncr L = true) :
    strictIncr (stepLevels L v) = true := by
  rw [stepLevels, stepLevelsRange]
  split
  · rfl
  · exact h

theorem contourCall_ok (x y : List Rat) (Z : List (List Rat)) (L : List Rat)
    (colors : String) (id : Nat)
    (h1 : 2 ≤ Z.length) (h2 : 2 ≤ (Z.headD []).length)
    (hx : x.length = (Z.headD []).length) (hy : y.length = Z.length)
    (hs : strictIncr L = true) :
    contourCall x y Z (.explicit L) colors id =
      .ok ⟨id, x, y, Z, stepLevelsRange L (listMin Z.flatten) (listMax Z.flatten), colors⟩ := by
  rw [contourCall]
  rw [if_neg (by omega)]
  rw [if_neg (by omega)]
  rw [if_neg (by omega)]
  simp only [hs, if_true]

theorem contourCall_incr_error (x y : List Rat) (Z : List (List Rat)) (L : List Rat)
    (colors : String) (id : Nat)
    (h1 : 2 ≤ Z.length) (h2 : 2 ≤ (Z.headD []).length)
    (hx : x.length = (Z.headD []).length) (hy : y.length = Z.length)
    (hs : strictIncr L = false) :
    contourCall x y Z (.explicit L) colors id =
      .error (.valueError "Contour levels must be increasing") := by
  rw [contourCall]
  rw [if_neg (by omega)]
  rw [if_neg (by omega)]
  rw [if_neg (by omega)]
  simp only [hs]
  rfl

theorem plot_ndarray_ok (c : Contour) (A : DataArray) (xs ys : List Rat)
    (v : List Rat) (lbl col : String) (L : List Rat)
    (hmf : c.magnetic_flux = some A)
    (hr : A.r_coord = some xs) (hz : A.z_coord = some ys)
    (hxl : xs.length = A.nr) (hyl : ys.length = A.nz)
    (h2z : 2 ≤ A.nz) (h2r : 2 ≤ A.nr)
    (hsc : c.shapeCache = none ∨ c.shapeCache = some (A.nz, A.nr))
    (hlv : c.levels = .explicit L) (hs : strictIncr L = true)
    (hvl : v.length = A.nz * A.nr)
    (hlbl : lbl.isEmpty = false) :
    c.plot (.ndarray v) (some lbl) { colors := some col } =
      (.ok ⟨c.nextId, xs, ys, chunkRows v A.nz A.nr, stepLevels L v, col⟩,
       { c with
           levels := .explicit (stepLevels L v)
           handles := c.handles ++ [(lbl, col)]
           axesCache := some ((c.axesCache.getD []) ++
             [⟨c.nextId, xs, ys, chunkRows v A.nz A.nr, stepLevels L v, col⟩])
           shapeCache := some (A.nz, A.nr)
           nextId := c.nextId + 1 }) := by
  have hcc := contourCall_ok xs ys (chunkRows v A.nz A.nr) L col c.nextId
    (by rw [chunkRows_length]; exact h2z)
    (by rw [chunkRows_head_length v A.nz A.nr hvl (by omega)]; exact h2r)
    (by rw [chunkRows_head_length v A.nz A.nr hvl (by omega)]; exact hxl)
    (by rw [chunkRows_length]; exact hyl)
    hs
  rw [chunkRows_flatten v A.nz A.nr hvl] at hcc
  rcases hsc with hsc | hsc <;>
  rcases hax : c.axesCache with _ | s <;>
  · simp only [Contour.plot, Contour.axes, Contour.shape, hax, hmf, hr, hz, hsc, hlv,
      Option.getD_some, Option.getD_none, hvl, hcc, hlbl, stepLevels]
    simp [hvl, hlbl]

theorem call_ok (c : Contour) (A : DataArray) (xs ys : List Rat)
    (e p : List Rat) (L : List Rat)
    (hmf : c.magnetic_flux = some A)
    (hr : A.r_coord = some xs) (hz : A.z_coord = some ys)
    (hxl : xs.length = A.nr) (hyl : ys.length = A.nz)
    (h2z : 2 ≤ A.nz) (h2r : 2 ≤ A.nr)
    (hsc : c.shapeCache = none ∨ c.shapeCache = some (A.nz, A.nr))
    (hlv : c.levels = .explicit L) (hs : strictIncr L = true)
    (hel : e.length = A.nz * A.nr) (hpl : p.length = A.nz * A.nr) :
    c.call e p =
      (.ok [⟨c.nextId, xs, ys, chunkRows e A.nz A.nr, stepLevels L e, "gray"⟩,
            ⟨c.nextId + 1, xs, ys, chunkRows p A.nz A.nr,
              stepLevels (stepLevels L e) p, "C0"⟩],
       { c with
           levels := .explicit (stepLevels (stepLevels L e) p)
           handles := c.handles ++ [("EFIT++", "gray"), ("Prediction", "C0")]
           axesCache := some ((c.axesCache.getD []) ++
             [⟨c.nextId, xs, ys, chunkRows e A.nz A.nr, stepLevels L e, "gray"⟩,
              ⟨c.nextId + 1, xs, ys, chunkRows p A.nz A.nr,
                stepLevels (stepLevels L e) p, "C0"⟩])
           shapeCache := some (A.nz, A.nr)
           nextId := c.nextId + 2 }) := by
  rw [Contour.call]
  rw [plot_ndarray_ok c A xs ys e "EFIT++" "gray" L hmf hr hz hxl hyl h2z h2r hsc hlv hs hel rfl]
  dsimp only
  rw [plot_ndarray_ok _ A xs ys p "Prediction" "C0" (stepLevels L e)
    (by simp [hmf]) hr hz hxl hyl h2z h2r (by simp) (by simp)
    (stepLevels_strictIncr L e hs) hpl rfl]
  simp

theorem animGo_run (A : DataArray) (xs ys : List Rat)
    (hr : A.r_coord = some xs) (hz : A.z_coord = some ys)
    (hxl : xs.length = A.nr) (hyl : ys.length = A.nz)
    (h2z : 2 ≤ A.nz) (h2r : 2 ≤ A.nr) :
    ∀ (pairs : List (List Rat × List Rat)) (c : Contour) (contours : List ContourSet)
      (tr : List Event) (acc : List Frame) (i : Nat) (L : List Rat),
      c.magnetic_flux = some A → c.shapeCache = some (A.nz, A.nr) →
      c.axesCache = some contours →
      c.levels = .explicit L → strictIncr L = true →
      (∀ ep ∈ pairs, ep.1.length = A.nz * A.nr ∧ ep.2.length = A.nz * A.nr) →
      (c.animGo contours pairs tr acc i).1 =
        ⟨acc ++ expFrames xs ys A.nz A.nr L c.nextId pairs,
         tr ++ stepEvents i pairs.length, none⟩ := by
  intro pairs
  induction pairs with
  | nil =>
    intro c contours tr acc i L _ _ _ _ _ _
    simp [Contour.animGo, expFrames, stepEvents]
  | cons ep rest ih =>
    obtain ⟨e, p⟩ := ep
    intro c contours tr acc i L hmf hsc hax hlv hs hlen
    rw [Contour.animGo]
    rw [hax]
    simp only [Option.getD_some, removeIds_self]
    rw [call_ok _ A xs ys e p L (by simpa using hmf) hr hz hxl hyl h2z h2r
      (by simp [hsc]) (by simpa using hlv) hs
      (hlen (e, p) (by simp)).1 (hlen (e, p) (by simp)).2]
    dsimp only
    rw [ih _ _ _ _ _ _ (by simp [hmf]) (by simp) (by simp) (by simp)
      (stepLevels_strictIncr _ p (stepLevels_strictIncr L e hs))
      (fun q hq => hlen q (by simp [hq]))]
    simp [expFrames, stepEvents, List.append_assoc]

theorem flatten_ne_nil (efit : List (List Rat)) (A : DataArray)
    (hef : ∀ f ∈ efit, f.length = A.nz * A.nr) (hne : efit ≠ [])
    (h2z : 2 ≤ A.nz) (h2r : 2 ≤ A.nr) : efit.flatten ≠ [] := by
  obtain ⟨f, t, rfl⟩ := List.exists_cons_of_ne_nil hne
  have hf : f.length = A.nz * A.nr := hef f (by simp)
  intro hcon
  rw [List.flatten_cons] at hcon
  have : f = [] := by
    rcases List.append_eq_nil.mp hcon with ⟨h1, _⟩
    exact h1
  rw [this] at hf
  simp at hf
  rcases hf with h | h <;> omega

theorem next_image_run (c : Contour) (A : DataArray) (xs ys : List Rat)
    (efit pred : List (List Rat)) (s0 : List ContourSet)
    (hmf : c.magnetic_flux = some A)
    (hr : A.r_coord = some xs) (hz : A.z_coord = some ys)
    (hxl : xs.length = A.nr) (hyl : ys.length = A.nz)
    (h2z : 2 ≤ A.nz) (h2r : 2 ≤ A.nr)
    (hsc : c.shapeCache = none ∨ c.shapeCache = some (A.nz, A.nr))
    (hax : c.axesCache = some s0)
    (hef : ∀ f ∈ efit, f.length = A.nz * A.nr)
    (hpf : ∀ f ∈ pred, f.length = A.nz * A.nr)
    (hne : efit ≠ []) (hpne : pred ≠ [])
    (hlt : listMin efit.flatten < listMax efit.flatten) :
    (c.next_image efit pred).1 =
      ⟨expFrames xs ys A.nz A.nr
         (stepLevels (stepLevels
            (linspace (listMin efit.flatten) (listMax efit.flatten) 51)
            (efit.getLast hne)) (pred.getLast hpne))
         (c.nextId + 2) (efit.zip pred),
       [Event.reset, Event.drawPair (efit.length - 1), Event.legendBuilt] ++
         stepEvents 0 (efit.zip pred).length, none⟩ := by
  have hfne := flatten_ne_nil efit A hef hne h2z h2r
  obtain ⟨a0, t0, hfl⟩ := List.exists_cons_of_ne_nil hfne
  have hincr : strictIncr (linspace (listMin efit.flatten) (listMax efit.flatten) 51) = true :=
    strictIncr_linspace _ _ 51 hlt (by omega)
  rw [Contour.next_image, hax]
  dsimp only
  rw [hfl]
  dsimp only
  rw [List.getLast?_eq_getLast efit hne, List.getLast?_eq_getLast pred hpne]
  dsimp only
  rw [call_ok _ A xs ys _ _ (linspace (listMin (a0 :: t0)) (listMax (a0 :: t0)) 51)
    (by simp [hmf]) hr hz hxl hyl h2z h2r (by rcases hsc with h | h <;> simp [h])
    (by simp) (by rw [← hfl]; exact hincr)
    (hef _ (List.getLast_mem hne)) (hpf _ (List.getLast_mem hpne))]
  dsimp only [Contour.legend]
  rw [animGo_run A xs ys hr hz hxl hyl h2z h2r (efit.zip pred) _ _ _ _ _
    (stepLevels (stepLevels
        (linspace (listMin (a0 :: t0)) (listMax (a0 :: t0)) 51)
        (efit.getLast hne)) (pred.getLast hpne))
    (by simp [hmf]) (by simp) (by simp) (by simp)
    (stepLevels_strictIncr _ _ (stepLevels_strictIncr _ _ (by rw [← hfl]; exact hincr)))
    (by
      intro q hq
      have h1 := List.of_mem_zip hq
      exact ⟨hef q.1 h1.1, hpf q.2 h1.2⟩)]
  simp [List.append_assoc]

theorem expFrames_length (xs ys : List Rat) (nz nr : Nat) :
    ∀ (pairs : List (List Rat × List Rat)) (L : List Rat) (k : Nat),
      (expFrames xs ys nz nr L k pairs).length = pairs.length := by
  intro pairs
  induction pairs with
  | nil => intro L k; rfl
  | cons ep rest ih =>
    obtain ⟨e, p⟩ := ep
    intro L k
    simp [expFrames, ih]

theorem expFrames_getD (xs ys : List Rat) (nz nr : Nat) :
    ∀ (pairs : List (List Rat × List Rat)) (L : List Rat) (k j : Nat),
      j < pairs.length →
      ∃ L1 L2,
        (expFrames xs ys nz nr L k pairs).getD j [] =
          [⟨k + 2 * j, xs, ys, chunkRows (pairs.getD j ([], [])).1 nz nr, L1, "gray"⟩,
           ⟨k + 2 * j + 1, xs, ys, chunkRows (pairs.getD j ([], [])).2 nz nr, L2, "C0"⟩] := by
  intro pairs
  induction pairs with
  | nil => intro L k j hj; simp at hj
  | cons ep rest ih =>
    obtain ⟨e, p⟩ := ep
    intro L k j hj
    match j with
    | 0 =>
      refine ⟨stepLevels L e, stepLevels (stepLevels L e) p, ?_⟩
      simp [expFrames]
    | Nat.succ m =>
      have hm : m < rest.length := by simpa using hj
      obtain ⟨L1, L2, hL⟩ := ih (stepLevels (stepLevels L e) p) (k + 2) m hm
      refine ⟨L1, L2, ?_⟩
      simp only [expFrames, List.getD_cons_succ]
      rw [hL]
      have h1 : k + 2 + 2 * m = k + 2 * Nat.succ m := by omega
      rw [h1]

theorem stepLevels_eq_self (L v : List Rat)
    (h : ∃ l ∈ L, listMin v < l ∧ l < listMax v) :
    stepLevels L v = L := by
  obtain ⟨l, hl, h1, h2⟩ := h
  rw [stepLevels, stepLevelsRange, if_neg]
  intro hcon
  rw [List.isEmpty_iff, List.filter_eq_nil_iff] at hcon
  exact hcon l hl (by simp [rat_blt_iff, h1, h2])

theorem expFrames_stable (xs ys : List Rat) (nz nr : Nat) :
    ∀ (pairs : List (List Rat × List Rat)) (L : List Rat) (k : Nat),
      (∀ ep ∈ pairs, stepLevels L ep.1 = L ∧ stepLevels L ep.2 = L) →
      ∀ fr ∈ expFrames xs ys nz nr L k pairs, ∀ art ∈ fr, art.levels = L := by
  intro pairs
  induction pairs with
  | nil => intro L k _ fr hfr; simp [expFrames] at hfr
  | cons ep rest ih =>
    obtain ⟨e, p⟩ := ep
    intro L k hstab fr hfr
    have he : stepLevels L e = L := (hstab (e, p) (by simp)).1
    have hp : stepLevels L p = L := (hstab (e, p) (by simp)).2
    rw [expFrames] at hfr
    rcases List.mem_cons.mp hfr with rfl | hfr
    · intro art hart
      rcases List.mem_cons.mp hart with rfl | hart
      · simpa using he
      rcases List.mem_cons.mp hart with rfl | hart
      · simp only []
        rw [he, hp]
      · simp at hart
    · intro art hart
      refine ih L (k + 2) ?_ fr ?_ art hart
      · intro q hq
        exact hstab q (by simp [hq])
      · rw [he, hp] at hfr
        exact hfr

theorem zip_getD (efit pred : List (List Rat)) (j : Nat)
    (hj : j < (efit.zip pred).length) :
    (efit.zip pred).getD j ([], []) = (efit.getD j [], pred.getD j []) := by
  rw [List.length_zip] at hj
  rw [List.getD_eq_getElem _ _ (by rw [List.length_zip]; omega)]
  rw [List.getElem_zip]
  rw [List.getD_eq_getElem _ _ (by omega), List.getD_eq_getElem _ _ (by omega)]

theorem axes_shapeCache (c : Contour) : c.axes.2.shapeCache = c.shapeCache := by
  rw [Contour.axes]
  split <;> rfl

theorem shape_shapeCache_some (c : Contour) (p : Nat × Nat) (h : c.shapeCache = some p) :
    c.shape = (.ok p, c) := by
  rw [Contour.shape, h]

theorem plot_shapeCache (c : Contour) (d : PlotData) (l : Option String)
    (kw : Kwargs) (p : Nat × Nat) (h : c.shapeCache = some p) :
    (c.plot d l kw).2.shapeCache = some p := by
  rcases d with B | v | _ <;>
    simp only [Contour.plot, Contour.axes, Contour.shape] <;>
    rcases hax : c.axesCache with _ | s <;>
    (repeat' split) <;>
    aesop

theorem legend_shapeCache (c : Contour) : c.legend.2.shapeCache = c.shapeCache := rfl

theorem call_shapeCache (c : Contour) (e p : List Rat) (q : Nat × Nat)
    (h : c.shapeCache = some q) : (c.call e p).2.shapeCache = some q := by
  rw [Contour.call]
  rcases h1 : c.plot (.ndarray e) (some "EFIT++") { colors := some "gray" } with ⟨r1, c1⟩
  have hc1 : c1.shapeCache = some q := by
    have h2 := plot_shapeCache c (.ndarray e) (some "EFIT++") { colors := some "gray" } q h
    rw [h1] at h2
    exact h2
  rcases r1 with er | cs1
  · exact hc1
  · dsimp only
    rcases h2 : c1.plot (.ndarray p) (some "Prediction") { colors := some "C0" } with ⟨r2, c2⟩
    have hc2 : c2.shapeCache = some q := by
      have h3 := plot_shapeCache c1 (.ndarray p) (some "Prediction") { colors := some "C0" } q hc1
      rw [h2] at h3
      exact h3
    rcases r2 with er | cs2
    · exact hc2
    · exact hc2

theorem animGo_shapeCache (q : Nat × Nat) :
    ∀ (pairs : List (List Rat × List Rat)) (c : Contour) (contours : List ContourSet)
      (tr : List Event) (acc : List Frame) (i : Nat),
      c.shapeCache = some q →
      (c.animGo contours pairs tr acc i).2.shapeCache = some q := by
  intro pairs
  induction pairs with
  | nil => intro c contours tr acc i h; simpa [Contour.animGo] using h
  | cons ep rest ih =>
    obtain ⟨e, p⟩ := ep
    intro c contours tr acc i h
    rw [Contour.animGo]
    dsimp only
    split
    next er c1 heq =>
      have h2 := call_shapeCache { c with axesCache := some (removeIds
        (c.axesCache.getD []) (contours.map (fun a => a.id))) } e p q (by simpa using h)
      rw [heq] at h2
      exact h2
    next cs c1 heq =>
      have h2 := call_shapeCache { c with axesCache := some (removeIds
        (c.axesCache.getD []) (contours.map (fun a => a.id))) } e p q (by simpa using h)
      rw [heq] at h2
      exact ih _ _ _ _ _ h2

theorem next_image_shapeCache (c : Contour) (efit pred : List (List Rat))
    (q : Nat × Nat) (h : c.shapeCache = some q) :
    (c.next_image efit pred).2.shapeCache = some q := by
  rw [Contour.next_image]
  split
  · simpa using h
  next s hax =>
    dsimp only
    split
    · simpa using h
    next a t hfl =>
      split
      next le lp hle hlp =>
        split
        next er c1 heq =>
          have h2 := call_shapeCache { c with axesCache := none, handles := [], levels := LevelSpec.explicit (linspace (listMin (a :: t)) (listMax (a :: t)) 51) } le lp q (by simpa using h)
          rw [heq] at h2
          exact h2
        next cs c1 heq =>
          have h2 := call_shapeCache { c with axesCache := none, handles := [], levels := LevelSpec.explicit (linspace (listMin (a :: t)) (listMax (a :: t)) 51) } le lp q (by simpa using h)
          rw [heq] at h2
          exact animGo_shapeCache q _ _ _ _ _ _ (by simpa [Contour.legend] using h2)
      next hcon =>
        simpa using h

theorem to_gif_shapeCache (c : Contour) (efit pred : List (List Rat))
    (q : Nat × Nat) (h : c.shapeCache = some q) :
    (c.to_gif efit pred).2.shapeCache = some q := by
  rw [Contour.to_gif]
  have hni := next_image_shapeCache c efit pred q h
  rcases h1 : c.next_image efit pred with ⟨r, c1⟩
  rw [h1] at hni
  dsimp only
  rcases r.error with _ | er
  · rcases r.frames with _ | ⟨f, fs⟩ <;> simpa using hni
  · simpa using hni

theorem applyOp_shapeCache (c : Contour) (op : Op) (q : Nat × Nat)
    (h : c.shapeCache = some q) : (applyOp c op).shapeCache = some q := by
  rcases op with ⟨d, l, kw⟩ | _ | ⟨e, p⟩ | ⟨e, p⟩ | ⟨e, p⟩ | _ | _
  · exact plot_shapeCache c d l kw q h
  · simpa [applyOp, Contour.legend] using h
  · exact call_shapeCache c e p q h
  · exact next_image_shapeCache c e p q h
  · exact to_gif_shapeCache c e p q h
  · simp only [applyOp, Contour.shape, h]
  · simpa [applyOp, axes_shapeCache] using h

theorem applyOps_shapeCache (ops : List Op) :
    ∀ (c : Contour) (q : Nat × Nat), c.shapeCache = some q →
      (applyOps c ops).shapeCache = some q := by
  induction ops with
  | nil => intro c q h; simpa [applyOps] using h
  | cons op rest ih =>
    intro c q h
    rw [applyOps, List.foldl_cons]
    exact ih (applyOp c op) q (applyOp_shapeCache c op q h)

theorem plot_incr_error (c : Contour) (A : DataArray) (xs ys : List Rat)
    (v : List Rat) (lbl col : String) (L : List Rat)
    (hmf : c.magnetic_flux = some A)
    (hr : A.r_coord = some xs) (hz : A.z_coord = some ys)
    (hxl : xs.length = A.nr) (hyl : ys.length = A.nz)
    (h2z : 2 ≤ A.nz) (h2r : 2 ≤ A.nr)
    (hsc : c.shapeCache = none ∨ c.shapeCache = some (A.nz, A.nr))
    (hlv : c.levels = .explicit L) (hs : strictIncr L = false)
    (hvl : v.length = A.nz * A.nr) :
    c.plot (.ndarray v) (some lbl) { colors := some col } =
      (.error (.valueError "Contour levels must be increasing"),
       { c with shapeCache := some (A.nz, A.nr),
                axesCache := some (c.axesCache.getD []) }) := by
  have hcc := contourCall_incr_error xs ys (chunkRows v A.nz A.nr) L col c.nextId
    (by rw [chunkRows_length]; exact h2z)
    (by rw [chunkRows_head_length v A.nz A.nr hvl (by omega)]; exact h2r)
    (by rw [chunkRows_head_length v A.nz A.nr hvl (by omega)]; exact hxl)
    (by rw [chunkRows_length]; exact hyl)
    hs
  obtain ⟨cmf, clv, chd, csc, cax, cid⟩ := c
  simp only at hmf hlv hcc
  rcases hsc with hsc | hsc <;>
  simp only at hsc <;>
  subst hmf <;> subst hlv <;> subst hsc <;>
  rcases cax with _ | s <;>
  · simp only [Contour.plot, Contour.axes, Contour.shape, hr, hz,
      Option.getD_some, Option.getD_none, hvl, hcc]
    simp [hvl, hcc]

theorem call_incr_error (c : Contour) (A : DataArray) (xs ys : List Rat)
    (e p : List Rat) (L : List Rat)
    (hmf : c.magnetic_flux = some A)
    (hr : A.r_coord = some xs) (hz : A.z_coord = some ys)
    (hxl : xs.length = A.nr) (hyl : ys.length = A.nz)
    (h2z : 2 ≤ A.nz) (h2r : 2 ≤ A.nr)
    (hsc : c.shapeCache = none ∨ c.shapeCache = some (A.nz, A.nr))
    (hlv : c.levels = .explicit L) (hs : strictIncr L = false)
    (hel : e.length = A.nz * A.nr) :
    c.call e p = (.error (.valueError "Contour levels must be increasing"),
      { c with shapeCache := some (A.nz, A.nr),
               axesCache := some (c.axesCache.getD []) }) := by
  have hplot := plot_incr_error c A xs ys e "EFIT++" "gray" L
    hmf hr hz hxl hyl h2z h2r hsc hlv hs hel
  rw [Contour.call, hplot]

theorem constant_anim_error (c : Contour) (A : DataArray) (xs ys : List Rat)
    (efit pred : List (List Rat)) (s0 : List ContourSet) (v : Rat)
    (hmf : c.magnetic_flux = some A)
    (hr : A.r_coord = some xs) (hz : A.z_coord = some ys)
    (hxl : xs.length = A.nr) (hyl : ys.length = A.nz)
    (h2z : 2 ≤ A.nz) (h2r : 2 ≤ A.nr)
    (hsc : c.shapeCache = none ∨ c.shapeCache = some (A.nz, A.nr))
    (hax : c.axesCache = some s0)
    (hef : ∀ f ∈ efit, f.length = A.nz * A.nr)
    (hne : efit ≠ []) (hpne : pred ≠ [])
    (hconst : ∀ x ∈ efit.flatten, x = v) :
    (c.next_image efit pred).1 =
      ⟨[], [Event.reset], some (.valueError "Contour levels must be increasing")⟩ := by
  have hfne := flatten_ne_nil efit A hef hne h2z h2r
  obtain ⟨a0, t0, hfl⟩ := List.exists_cons_of_ne_nil hfne
  have hmin : listMin efit.flatten = v := listMin_const _ v hfne hconst
  have hmax : listMax efit.flatten = v := listMax_const _ v hfne hconst
  rw [hfl] at hmin hmax
  have hincr : strictIncr (linspace (listMin (a0 :: t0)) (listMax (a0 :: t0)) 51) = false := by
    rw [hmin, hmax]
    exact strictIncr_linspace_self v 51 (by omega)
  rw [Contour.next_image, hax]
  dsimp only
  rw [hfl]
  dsimp only
  rw [List.getLast?_eq_getLast efit hne, List.getLast?_eq_getLast pred hpne]
  dsimp only
  have hcall := call_incr_error
    { c with axesCache := none, handles := [], levels := LevelSpec.explicit (linspace (listMin (a0 :: t0)) (listMax (a0 :: t0)) 51) }
    A xs ys (efit.getLast hne) (pred.getLast hpne)
    (linspace (listMin (a0 :: t0)) (listMax (a0 :: t0)) 51)
    (by simpa using hmf) hr hz hxl hyl h2z h2r
    (by rcases hsc with h | h <;> simp [h]) (by simp) hincr
    (hef _ (List.getLast_mem hne))
  rw [hcall]

/-- A 3x3 `DataArray` used to rebind an animator whose shape is already
cached with a different shape. -/
def gridB : DataArray :=
  { z_coord := some [0, 1, 2], r_coord := some [0, 1, 2], nz := 3, nr := 3,
    values := [0, 0, 0, 0, 0, 0, 0, 0, 1] }

set_option maxRecDepth 8000

/-- C1 (counterexample): equal-length non-empty sequences of valid fields
(a single constant 2x2 frame each) for which the animation yields zero
frames and raises, instead of one frame per index: the 51 equal contour
levels computed from the constant range are rejected. -/
theorem C1_counterexample :
    (baseC.next_image [[1, 1, 1, 1]] [[1, 1, 1, 1]]).1 =
      ⟨[], [Event.reset], some (.valueError "Contour levels must be increasing")⟩ := by
  decide

/-- C1 (amended): on a bound animator whose drawing surface exists, with
valid equal-length non-empty field sequences whose ground-truth values are
not all equal, the animation yields exactly one frame per index, in input
order: frame `j` holds exactly the two contour artists drawn from index
`j` of the two sequences. -/
theorem C1_frames_per_index (c : Contour) (A : DataArray) (xs ys : List Rat)
    (efit pred : List (List Rat)) (s0 : List ContourSet) (N : Nat)
    (hmf : c.magnetic_flux = some A)
    (hr : A.r_coord = some xs) (hz : A.z_coord = some ys)
    (hxl : xs.length = A.nr) (hyl : ys.length = A.nz)
    (h2z : 2 ≤ A.nz) (h2r : 2 ≤ A.nr)
    (hsc : c.shapeCache = none ∨ c.shapeCache = some (A.nz, A.nr))
    (hax : c.axesCache = some s0)
    (hef : ∀ f ∈ efit, f.length = A.nz * A.nr)
    (hpf : ∀ f ∈ pred, f.length = A.nz * A.nr)
    (hne : efit ≠ []) (hpne : pred ≠ [])
    (hlt : listMin efit.flatten < listMax efit.flatten)
    (hNe : efit.length = N) (hNp : pred.length = N) :
    (c.next_image efit pred).1.error = none ∧
    (c.next_image efit pred).1.frames.length = N ∧
    ∀ j, j < N → ∃ L1 L2,
      (c.next_image efit pred).1.frames.getD j [] =
        [⟨c.nextId + 2 + 2 * j, xs, ys, chunkRows (efit.getD j []) A.nz A.nr, L1, "gray"⟩,
         ⟨c.nextId + 2 + 2 * j + 1, xs, ys, chunkRows (pred.getD j []) A.nz A.nr, L2, "C0"⟩] := by
  rw [next_image_run c A xs ys efit pred s0 hmf hr hz hxl hyl h2z h2r hsc hax hef hpf
    hne hpne hlt]
  have hzlen : (efit.zip pred).length = N := by
    rw [List.length_zip, hNe, hNp, Nat.min_self]
  refine ⟨rfl, ?_, ?_⟩
  · simpa [expFrames_length] using hzlen
  · intro j hj
    obtain ⟨L1, L2, hL⟩ := expFrames_getD xs ys A.nz A.nr (efit.zip pred) _ (c.nextId + 2) j
      (by omega)
    refine ⟨L1, L2, ?_⟩
    dsimp only
    rw [hL, zip_getD efit pred j (by omega)]

/-- C1 (witness): the amended theorem evaluated on a single-frame pair over
the 2x2 test grid. -/
theorem C1_witness :
    (baseC.next_image [[0, 0, 0, 1]] [[0, 0, 0, 1]]).1.frames.length = 1 :=
  (C1_frames_per_index baseC gridA [0, 1] [0, 1] [[0, 0, 0, 1]] [[0, 0, 0, 1]] [] 1
    rfl rfl rfl rfl rfl (by decide) (by decide) (Or.inl rfl) rfl
    (by decide) (by decide) (by decide) (by decide) (by decide) rfl rfl).2.1

/-- C2 (counterexample): a ground-truth sequence of length 2 and a
prediction sequence of length 1 are animated without any error: one frame
is yielded (the prefix of the longer sequence is silently processed), and
no `LengthMismatchError` exists anywhere in the code. -/
theorem C2_counterexample :
    (baseC.next_image [[0, 0, 0, 1], [0, 0, 0, 1]] [[0, 0, 0, 1]]).1.error = none ∧
    (baseC.next_image [[0, 0, 0, 1], [0, 0, 0, 1]] [[0, 0, 0, 1]]).1.frames.length = 1 := by
  decide

/-- C2 (amended): the animation performs no length validation: for
non-empty sequences of lengths M and N (valid fields, non-degenerate
ground truth), it silently yields `min M N` frames, truncating to the
shorter sequence, and raises nothing. -/
theorem C2_zip_truncates (c : Contour) (A : DataArray) (xs ys : List Rat)
    (efit pred : List (List Rat)) (s0 : List ContourSet)
    (hmf : c.magnetic_flux = some A)
    (hr : A.r_coord = some xs) (hz : A.z_coord = some ys)
    (hxl : xs.length = A.nr) (hyl : ys.length = A.nz)
    (h2z : 2 ≤ A.nz) (h2r : 2 ≤ A.nr)
    (hsc : c.shapeCache = none ∨ c.shapeCache = some (A.nz, A.nr))
    (hax : c.axesCache = some s0)
    (hef : ∀ f ∈ efit, f.length = A.nz * A.nr)
    (hpf : ∀ f ∈ pred, f.length = A.nz * A.nr)
    (hne : efit ≠ []) (hpne : pred ≠ [])
    (hlt : listMin efit.flatten < listMax efit.flatten) :
    (c.next_image efit pred).1.error = none ∧
    (c.next_image efit pred).1.frames.length = min efit.length pred.length := by
  rw [next_image_run c A xs ys efit pred s0 hmf hr hz hxl hyl h2z h2r hsc hax hef hpf
    hne hpne hlt]
  exact ⟨rfl, by simp [expFrames_length, List.length_zip]⟩

/-- C2 (witness): the amended theorem evaluated at lengths 2 and 1. -/
theorem C2_witness :
    (baseC.next_image [[0, 0, 0, 1], [0, 0, 0, 1]] [[0, 0, 0, 1]]).1.frames.length =
      min 2 1 :=
  (C2_zip_truncates baseC gridA [0, 1] [0, 1] [[0, 0, 0, 1], [0, 0, 0, 1]] [[0, 0, 0, 1]] []
    rfl rfl rfl rfl rfl (by decide) (by decide) (Or.inl rfl) rfl
    (by decide) (by decide) (by decide) (by decide) (by decide)).2

/-- C4 (counterexample): with ground truth ranging over (0, 1) and a
constant prediction at 5, the animation succeeds but the first frame's
ground-truth artist is drawn with the level set `[0]`, not the 51-point
level set computed from the ground-truth global min/max: the level set is
re-read from each contour draw and collapses when a drawn field's range
contains none of the current levels. -/
theorem C4_counterexample :
    (baseC.next_image [[0, 0, 0, 1], [0, 0, 0, 1]] [[5, 5, 5, 5], [5, 5, 5, 5]]).1.error
        = none ∧
    (((baseC.next_image [[0, 0, 0, 1], [0, 0, 0, 1]]
        [[5, 5, 5, 5], [5, 5, 5, 5]]).1.frames.getD 0 []).getD 0 noArtist).levels = [0] ∧
    linspace (listMin ([[0, 0, 0, 1], [0, 0, 0, 1]] : List (List Rat)).flatten)
      (listMax ([[0, 0, 0, 1], [0, 0, 0, 1]] : List (List Rat)).flatten) 51 ≠ [0] := by
  decide

/-- C4 (amended): the level set is initialized once, from the global
min/max of the entire ground-truth sequence; provided every drawn field's
value range strictly contains at least one of those initial levels, that
same level set is used for every contour of every frame. -/
theorem C4_levels_fixed (c : Contour) (A : DataArray) (xs ys : List Rat)
    (efit pred : List (List Rat)) (s0 : List ContourSet)
    (hmf : c.magnetic_flux = some A)
    (hr : A.r_coord = some xs) (hz : A.z_coord = some ys)
    (hxl : xs.length = A.nr) (hyl : ys.length = A.nz)
    (h2z : 2 ≤ A.nz) (h2r : 2 ≤ A.nr)
    (hsc : c.shapeCache = none ∨ c.shapeCache = some (A.nz, A.nr))
    (hax : c.axesCache = some s0)
    (hef : ∀ f ∈ efit, f.length = A.nz * A.nr)
    (hpf : ∀ f ∈ pred, f.length = A.nz * A.nr)
    (hne : efit ≠ []) (hpne : pred ≠ [])
    (hlt : listMin efit.flatten < listMax efit.flatten)
    (hstab : ∀ f ∈ efit ++ pred,
      ∃ l ∈ linspace (listMin efit.flatten) (listMax efit.flatten) 51,
        listMin f < l ∧ l < listMax f) :
    (c.next_image efit pred).1.error = none ∧
    ∀ fr ∈ (c.next_image efit pred).1.frames, ∀ art ∈ fr,
      art.levels = linspace (listMin efit.flatten) (listMax efit.flatten) 51 := by
  rw [next_image_run c A xs ys efit pred s0 hmf hr hz hxl hyl h2z h2r hsc hax hef hpf
    hne hpne hlt]
  have hle : stepLevels (linspace (listMin efit.flatten) (listMax efit.flatten) 51)
      (efit.getLast hne) = linspace (listMin efit.flatten) (listMax efit.flatten) 51 :=
    stepLevels_eq_self _ _ (hstab _ (List.mem_append_left _ (List.getLast_mem hne)))
  have hlp : stepLevels (linspace (listMin efit.flatten) (listMax efit.flatten) 51)
      (pred.getLast hpne) = linspace (listMin efit.flatten) (listMax efit.flatten) 51 :=
    stepLevels_eq_self _ _ (hstab _ (List.mem_append_right _ (List.getLast_mem hpne)))
  refine ⟨rfl, ?_⟩
  dsimp only
  rw [hle, hlp]
  apply expFrames_stable
  intro ep hep
  have hm := List.of_mem_zip hep
  exact ⟨stepLevels_eq_self _ _ (hstab _ (List.mem_append_left _ hm.1)),
         stepLevels_eq_self _ _ (hstab _ (List.mem_append_right _ hm.2))⟩

/-- C4 (witness): the amended theorem evaluated on a single-frame pair
whose fields range over (0, 1), at the first artist of the first frame. -/
theorem C4_witness :
    (((baseC.next_image [[0, 0, 0, 1]] [[0, 0, 0, 1]]).1.frames.getD 0 []).getD 0
        noArtist).levels =
      linspace (listMin ([[0, 0, 0, 1]] : List (List Rat)).flatten)
        (listMax ([[0, 0, 0, 1]] : List (List Rat)).flatten) 51 :=
  (C4_levels_fixed baseC gridA [0, 1] [0, 1] [[0, 0, 0, 1]] [[0, 0, 0, 1]] []
    rfl rfl rfl rfl rfl (by decide) (by decide) (Or.inl rfl) rfl
    (by decide) (by decide) (by decide) (by decide) (by decide)
    (by
      intro f hf
      refine ⟨mkRat 1 2, by decide, ?_⟩
      have hfe : f = [0, 0, 0, 1] := by simpa using hf
      rw [hfe]
      decide)).2
    ((baseC.next_image [[0, 0, 0, 1]] [[0, 0, 0, 1]]).1.frames.getD 0 []) (by decide)
    (((baseC.next_image [[0, 0, 0, 1]] [[0, 0, 0, 1]]).1.frames.getD 0 []).getD 0
      noArtist) (by decide)

/-- C5 (counterexample): ten identical constant-1.0 frames for ground
truth and prediction: the GIF export raises the contour-level `ValueError`
(the 51 equal levels computed from the constant range are rejected), so no
animated file with 10 frames is produced. -/
theorem C5_counterexample :
    (baseC.to_gif (List.replicate 10 [1, 1, 1, 1])
      (List.replicate 10 [1, 1, 1, 1])).1 =
      .error (.valueError "Contour levels must be increasing") := by
  decide

/-- C5 (amended): for any constant-valued non-empty ground-truth sequence
(and non-empty prediction sequence) on the animator's grid, `to_gif`
raises the `ValueError` of the contour-level validation and produces no
file. -/
theorem C5_constant_gif_raises (c : Contour) (A : DataArray) (xs ys : List Rat)
    (efit pred : List (List Rat)) (s0 : List ContourSet) (v : Rat)
    (hmf : c.magnetic_flux = some A)
    (hr : A.r_coord = some xs) (hz : A.z_coord = some ys)
    (hxl : xs.length = A.nr) (hyl : ys.length = A.nz)
    (h2z : 2 ≤ A.nz) (h2r : 2 ≤ A.nr)
    (hsc : c.shapeCache = none ∨ c.shapeCache = some (A.nz, A.nr))
    (hax : c.axesCache = some s0)
    (hef : ∀ f ∈ efit, f.length = A.nz * A.nr)
    (hne : efit ≠ []) (hpne : pred ≠ [])
    (hconst : ∀ x ∈ efit.flatten, x = v) :
    (c.to_gif efit pred).1 = .error (.valueError "Contour levels must be increasing") := by
  have hni := constant_anim_error c A xs ys efit pred s0 v hmf hr hz hxl hyl h2z h2r
    hsc hax hef hne hpne hconst
  rw [Contour.to_gif]
  rcases h1 : c.next_image efit pred with ⟨r, c1⟩
  rw [h1] at hni
  simp only at hni
  rw [hni]

/-- C5 (witness): the amended theorem evaluated on the 10-frame constant
scenario. -/
theorem C5_witness :
    (baseC.to_gif (List.replicate 10 [1, 1, 1, 1])
      (List.replicate 10 [1, 1, 1, 1])).1 =
      .error (.valueError "Contour levels must be increasing") :=
  C5_constant_gif_raises baseC gridA [0, 1] [0, 1]
    (List.replicate 10 [1, 1, 1, 1]) (List.replicate 10 [1, 1, 1, 1]) [] 1
    rfl rfl rfl rfl rfl (by decide) (by decide) (Or.inl rfl) rfl
    (by decide) (by decide) (by decide) (by decide)

/-- C6 (counterexample): with length-0 sequences the generator raises a
`ValueError` (the empty-array reduction of `efit.min()`) before yielding
any frame, and `to_gif` propagates that same error; no
`EmptySequenceError` exists in the code. -/
theorem C6_counterexample :
    (baseC.next_image [] []).1 =
      ⟨[], [Event.reset],
        some (.valueError
          "zero-size array to reduction operation minimum which has no identity")⟩ ∧
    (baseC.to_gif [] []).1 =
      .error (.valueError
        "zero-size array to reduction operation minimum which has no identity") := by
  decide

/-- C6 (amended): on any animator whose drawing surface exists, iterating
the generator on two empty sequences yields no frame and raises the
`ValueError` of the empty-array min reduction; `to_gif` propagates that
error (not an `EmptySequenceError`, which does not exist). -/
theorem C6_empty_raises_min_error (c : Contour) (s0 : List ContourSet)
    (hax : c.axesCache = some s0) :
    (c.next_image [] []).1 =
      ⟨[], [Event.reset],
        some (.valueError
          "zero-size array to reduction operation minimum which has no identity")⟩ ∧
    (c.to_gif [] []).1 =
      .error (.valueError
        "zero-size array to reduction operation minimum which has no identity") := by
  constructor
  · rw [Contour.next_image, hax]
    rfl
  · rw [Contour.to_gif, Contour.next_image, hax]
    rfl

/-- C6 (witness): the amended theorem evaluated on the test animator. -/
theorem C6_witness :
    (baseC.to_gif [] []).1 =
      .error (.valueError
        "zero-size array to reduction operation minimum which has no identity") :=
  (C6_empty_raises_min_error baseC [] rfl).2

theorem linspace_replicate (a : Rat) (n : Nat) :
    linspace a a n = List.replicate n a := by
  match n with
  | 0 => rfl
  | 1 => rfl
  | m + 2 =>
    apply List.ext_getElem
    · simp [linspace_length]
    · intro i h1 h2
      have hi : i < m + 2 := by simpa [linspace_length] using h1
      have hg := linspace_getD a a (m + 2) i (by omega) hi
      rw [List.getD_eq_getElem _ 0 h1] at hg
      rw [hg]
      simp

theorem strictIncr_replicate (v : Rat) (n : Nat) (h : 2 ≤ n) :
    strictIncr (List.replicate n v) = false := by
  obtain ⟨m, rfl⟩ : ∃ m, n = m + 2 := ⟨n - 2, by omega⟩
  rw [List.replicate_succ, List.replicate_succ]
  simp only [strictIncr, Bool.and_eq_false_iff]
  left
  rw [show (Rat.blt v v = false) ↔ ¬(Rat.blt v v = true) by simp, rat_blt_iff]
  exact lt_irrefl v

/-- C8 (counterexample): a constant (degenerate) ground-truth sequence
makes the animation raise the contour-level `ValueError` instead of
succeeding with a single-level contour set. -/
theorem C8_counterexample :
    (baseC.next_image [[5, 5, 5, 5]] [[5, 5, 5, 5]]).1 =
      ⟨[], [Event.reset], some (.valueError "Contour levels must be increasing")⟩ := by
  decide

/-- C8 (amended): for every ground-truth sequence whose values are all
equal (global min = max), the level set computed once from the global
min/max is `linspace v v 51`, i.e. 51 copies of the constant `v`; that
list fails matplotlib's strictly-increasing check, and the animation
raises a `ValueError` before yielding any frame — it does not collapse to
a single-level contour set. -/
theorem C8_degenerate_raises (c : Contour) (A : DataArray) (xs ys : List Rat)
    (efit pred : List (List Rat)) (s0 : List ContourSet) (v : Rat)
    (hmf : c.magnetic_flux = some A)
    (hr : A.r_coord = some xs) (hz : A.z_coord = some ys)
    (hxl : xs.length = A.nr) (hyl : ys.length = A.nz)
    (h2z : 2 ≤ A.nz) (h2r : 2 ≤ A.nr)
    (hsc : c.shapeCache = none ∨ c.shapeCache = some (A.nz, A.nr))
    (hax : c.axesCache = some s0)
    (hef : ∀ f ∈ efit, f.length = A.nz * A.nr)
    (hne : efit ≠ []) (hpne : pred ≠ [])
    (hconst : ∀ x ∈ efit.flatten, x = v) :
    linspace (listMin efit.flatten) (listMax efit.flatten) 51 =
      List.replicate 51 v ∧
    strictIncr (List.replicate 51 v) = false ∧
    (c.next_image efit pred).1 =
      ⟨[], [Event.reset], some (.valueError "Contour levels must be increasing")⟩ := by
  have hfne := flatten_ne_nil efit A hef hne h2z h2r
  have hmin : listMin efit.flatten = v := listMin_const _ v hfne hconst
  have hmax : listMax efit.flatten = v := listMax_const _ v hfne hconst
  refine ⟨by rw [hmin, hmax, linspace_replicate],
          strictIncr_replicate v 51 (by omega), ?_⟩
  exact constant_anim_error c A xs ys efit pred s0 v hmf hr hz hxl hyl h2z h2r
    hsc hax hef hne hpne hconst

/-- C8 (witness): the amended theorem evaluated on a constant-7.0
two-frame sequence pair. -/
theorem C8_witness :
    linspace
        (listMin ([[7, 7, 7, 7], [7, 7, 7, 7]] : List (List Rat)).flatten)
        (listMax ([[7, 7, 7, 7], [7, 7, 7, 7]] : List (List Rat)).flatten) 51 =
      List.replicate 51 7 ∧
    strictIncr (List.replicate 51 (7 : Rat)) = false ∧
    (baseC.next_image [[7, 7, 7, 7], [7, 7, 7, 7]] [[7, 7, 7, 7], [7, 7, 7, 7]]).1 =
      ⟨[], [Event.reset], some (.valueError "Contour levels must be increasing")⟩ :=
  C8_degenerate_raises baseC gridA [0, 1] [0, 1]
    [[7, 7, 7, 7], [7, 7, 7, 7]] [[7, 7, 7, 7], [7, 7, 7, 7]] [] 7
    rfl rfl rfl rfl rfl (by decide) (by decide) (Or.inl rfl) rfl
    (by decide) (by decide) (by decide) (by decide)

/-- C7: on a bound animator with a live drawing surface and valid
equal-length non-empty non-degenerate sequences, the animation first
resets the surface and legend state, then draws the last frame pair and
builds the legend exactly once, and then for each index in order removes
the previous artists, redraws the pair at that index and yields its
snapshot, which holds exactly the two artists of that index. -/
theorem C7_event_order (c : Contour) (A : DataArray) (xs ys : List Rat)
    (efit pred : List (List Rat)) (s0 : List ContourSet) (N : Nat)
    (hmf : c.magnetic_flux = some A)
    (hr : A.r_coord = some xs) (hz : A.z_coord = some ys)
    (hxl : xs.length = A.nr) (hyl : ys.length = A.nz)
    (h2z : 2 ≤ A.nz) (h2r : 2 ≤ A.nr)
    (hsc : c.shapeCache = none ∨ c.shapeCache = some (A.nz, A.nr))
    (hax : c.axesCache = some s0)
    (hef : ∀ f ∈ efit, f.length = A.nz * A.nr)
    (hpf : ∀ f ∈ pred, f.length = A.nz * A.nr)
    (hne : efit ≠ []) (hpne : pred ≠ [])
    (hlt : listMin efit.flatten < listMax efit.flatten)
    (hNe : efit.length = N) (hNp : pred.length = N) :
    (c.next_image efit pred).1.events =
      [Event.reset, Event.drawPair (N - 1), Event.legendBuilt] ++ stepEvents 0 N ∧
    (c.next_image efit pred).1.error = none ∧
    (c.next_image efit pred).1.frames.length = N ∧
    ∀ j, j < N → ∃ L1 L2,
      (c.next_image efit pred).1.frames.getD j [] =
        [⟨c.nextId + 2 + 2 * j, xs, ys, chunkRows (efit.getD j []) A.nz A.nr, L1, "gray"⟩,
         ⟨c.nextId + 2 + 2 * j + 1, xs, ys, chunkRows (pred.getD j []) A.nz A.nr,
           L2, "C0"⟩] := by
  rw [next_image_run c A xs ys efit pred s0 hmf hr hz hxl hyl h2z h2r hsc hax hef hpf
    hne hpne hlt]
  have hzlen : (efit.zip pred).length = N := by
    rw [List.length_zip, hNe, hNp, Nat.min_self]
  refine ⟨by rw [hzlen, hNe], rfl, ?_, ?_⟩
  · simpa [expFrames_length] using hzlen
  · intro j hj
    obtain ⟨L1, L2, hL⟩ := expFrames_getD xs ys A.nz A.nr (efit.zip pred) _ (c.nextId + 2) j
      (by omega)
    refine ⟨L1, L2, ?_⟩
    dsimp only
    rw [hL, zip_getD efit pred j (by omega)]

/-- C7 (witness): the event trace of a two-frame animation on the test
animator. -/
theorem C7_witness :
    (baseC.next_image [[0, 0, 0, 1], [0, 0, 0, 1]] [[0, 0, 0, 1], [0, 0, 0, 1]]).1.events =
      [Event.reset, Event.drawPair 1, Event.legendBuilt] ++ stepEvents 0 2 :=
  (C7_event_order baseC gridA [0, 1] [0, 1]
    [[0, 0, 0, 1], [0, 0, 0, 1]] [[0, 0, 0, 1], [0, 0, 0, 1]] [] 2
    rfl rfl rfl rfl rfl (by decide) (by decide) (Or.inl rfl) rfl
    (by decide) (by decide) (by decide) (by decide) (by decide) rfl rfl).1

/-- C3 (counterexample): on an animator with an established 2x2 grid, a
flat field of 5 elements raises the reshape `ValueError`, and a
`DataArray` without coordinate variables raises an `AttributeError` with
the grid message — neither is a `GridMismatchError`, which does not exist
in the code. -/
theorem C3_counterexample :
    (boundC.plot (.ndarray [1, 2, 3, 4, 5]) none {}).1 =
      .error (.valueError "cannot reshape array") ∧
    (boundC.plot (.dataArray gridNoCoords) none {}).1 =
      .error (.attributeError gridMsg) := by
  decide

/-- C3 (amended): `plot` raises an `AttributeError` carrying the
grid-coordinates message when the supplied `DataArray` lacks the
`major_radius` or `z` coordinate, and raises the reshape `ValueError` when
a flat field's element count disagrees with the established grid shape. -/
theorem C3_plot_error_types (c : Contour) (B : DataArray) (v : List Rat)
    (l : Option String) (kw : Kwargs) (A : DataArray) (xs ys : List Rat)
    (nz nr : Nat) :
    ((B.r_coord = none ∨ B.z_coord = none) →
      (c.plot (.dataArray B) l kw).1 = .error (.attributeError gridMsg)) ∧
    (c.magnetic_flux = some A → A.r_coord = some xs → A.z_coord = some ys →
      c.shapeCache = some (nz, nr) → v.length ≠ nz * nr →
      (c.plot (.ndarray v) l kw).1 = .error (.valueError "cannot reshape array")) := by
  constructor
  · intro hmiss
    rcases hrc : B.r_coord with _ | bxs
    · rcases hax : c.axesCache with _ | s <;>
        simp [Contour.plot, Contour.axes, hax, hrc]
    · have hzc : B.z_coord = none := by
        rcases hmiss with h | h
        · rw [h] at hrc; cases hrc
        · exact h
      rcases hax : c.axesCache with _ | s <;>
        simp [Contour.plot, Contour.axes, hax, hrc, hzc]
  · intro hmf hrc hzc hcache hlen
    rcases hax : c.axesCache with _ | s <;>
      simp [Contour.plot, Contour.axes, Contour.shape, hax, hmf, hrc, hzc, hcache, hlen]

/-- C3 (witness): the amended theorem evaluated at the 5-element flat
field on the established 2x2 grid. -/
theorem C3_witness :
    (boundC.plot (.ndarray [1, 2, 3, 4, 5]) none {}).1 =
      .error (.valueError "cannot reshape array") :=
  (C3_plot_error_types boundC gridNoCoords [1, 2, 3, 4, 5] none {} gridA
    [0, 1] [0, 1] 2 2).2 rfl rfl rfl rfl (by decide)

/-- C9: the grid shape is computed once, from the flux field bound at the
time of the first `shape` access, is cached, and no later operation — in
particular no `plot` call rebinding the instance to a differently shaped
`DataArray` — ever changes it, so every later `shape` access returns the
first-established pair. -/
theorem C9_shape_cached_once (c : Contour) (A : DataArray) (ops : List Op)
    (hmf : c.magnetic_flux = some A) (hsc : c.shapeCache = none) :
    c.shape.1 = .ok (A.nz, A.nr) ∧
    c.shape.2.shapeCache = some (A.nz, A.nr) ∧
    (applyOps c.shape.2 ops).shapeCache = some (A.nz, A.nr) ∧
    ((applyOps c.shape.2 ops).shape).1 = .ok (A.nz, A.nr) := by
  have h1 : c.shape = (.ok (A.nz, A.nr), { c with shapeCache := some (A.nz, A.nr) }) := by
    rw [Contour.shape, hsc, hmf]
  rw [h1]
  have h2 := applyOps_shapeCache ops { c with shapeCache := some (A.nz, A.nr) }
    (A.nz, A.nr) rfl
  refine ⟨rfl, rfl, h2, ?_⟩
  rw [Contour.shape, h2]

/-- C9 (witness): after the shape is established from the 2x2 grid, a
`plot` call that rebinds the animator to a 3x3 `DataArray` leaves the
cached shape (and thus every later `shape` access) at the original
pair. -/
theorem C9_witness :
    (applyOps (({ magnetic_flux := some gridA } : Contour).shape).2
        [Op.plotOp (.dataArray gridB) none {}]).shapeCache = some (2, 2) :=
  (C9_shape_cached_once { magnetic_flux := some gridA } gridA
    [Op.plotOp (.dataArray gridB) none {}] rfl rfl).2.2.1

/-- C10: `legend` hands the accumulated handle list to the plotting
library, empties it, and changes nothing else of the animator state; a
second consecutive `legend` call therefore builds an empty legend. -/
theorem C10_legend_resets_handles (c : Contour) :
    c.legend.1 = c.handles ∧
    c.legend.2 = { c with handles := [] } ∧
    c.legend.2.legend.1 = [] :=
  ⟨rfl, rfl, rfl⟩
